import Mathlib

/-!
# Verification of the SDMS catalog / staging core

A shallow embedding, in Lean 4, of the core algorithms of the SDMS repository
(`crawlerHPSS.py`, `crawlerXRD.py`, `stagerSDMS.py`) together with proofs of
the behavioural claims made by the natural-language specification.

Modelling conventions:
* MongoDB documents are association lists from dotted field names to values
  (`MDoc`).  Sub-documents (`staging`, `starDetails`, `storage`) are carried
  with their dotted keys (`"staging.stageMarkerXRD"`, ...), matching how the
  Python code itself addresses them in queries and updates.
* The persistent store is embedded per its contract: `find_one_and_update`
  with `upsert` is an atomic find-or-create, and `insert_many(ordered=False)`
  is a best-effort per-item bulk insert that reports the inserted ids and
  rejects (rather than inserts) any document whose `_id` already exists.
* Fallible Python code (uncaught exceptions such as a failing `int(...)`
  coercion) is embedded with `Option`: `none` is the propagating exception.
* All machinery on paths is done on `List Char`; the Python single-character
  `str.split` / `str.find` / slicing operations are re-implemented below so
  that every definition evaluates by kernel reduction.
-/

namespace SDMS

/-- A MongoDB value: string, integer, or boolean.  `flt` carries the literal
text of a float field; no schema in the repository declares a float key, so
float arithmetic is never exercised. -/
inductive MVal where
  | str (s : String)
  | int (n : Int)
  | bool (b : Bool)
  | flt (lit : String)
deriving DecidableEq

/-- A MongoDB document: an association list from (dotted) field names to
values.  Lookup returns the first binding of a key. -/
abbrev MDoc := List (String × MVal)

/-- First-binding lookup in a document. -/
def mLookup (k : String) : MDoc → Option MVal
  | [] => none
  | (k', v) :: rest => if k' = k then some v else mLookup k rest

/-- MongoDB `$set` of a single field: overwrite the first binding of the key,
or append the binding if the field is absent. -/
def setField (k : String) (v : MVal) : MDoc → MDoc
  | [] => [(k, v)]
  | (k', w) :: rest => if k' = k then (k, v) :: rest else (k', w) :: setField k v rest

/-- Remove the first binding of a key (`dict.pop` / `del` in Python). -/
def eraseKey (k : String) : MDoc → MDoc
  | [] => []
  | (k', w) :: rest => if k' = k then rest else (k', w) :: eraseKey k rest

/-- MongoDB equality-predicate matching: every field of the query must be
present in the document with exactly the queried value. -/
def mongoMatch (q : List (String × MVal)) (d : MDoc) : Bool :=
  q.all (fun kv => mLookup kv.1 d = some kv.2)

/-! ## String machinery

Python's `str.find`, `in` (substring test), single-character `str.split`,
and slicing, re-implemented on `List Char`. -/

/-- Does `sub` occur in `l` at position `i`?  (Bool-valued.) -/
def occursAt (sub l : List Char) (i : Nat) : Bool := sub.isPrefixOf (l.drop i)

/-- Auxiliary scan for the leftmost occurrence of `sub`; `i` is the index of
the head of the remaining haystack. -/
def strFindAux (sub : List Char) : List Char → Nat → Option Nat
  | [], i => if sub.isPrefixOf ([] : List Char) then some i else none
  | c :: t, i => if sub.isPrefixOf (c :: t) then some i else strFindAux sub t (i + 1)

/-- Index of the leftmost occurrence of `sub` in `l` (Python `str.find`,
with `none` for Python's `-1`). -/
def strFind (sub l : List Char) : Option Nat := strFindAux sub l 0

/-- Python substring test `sub in s`. -/
def containsSub (s sub : String) : Bool := (strFind sub.data s.data).isSome

/-- Python `s.split(sep)` for a single-character separator (accumulator holds
the current piece reversed). -/
def splitOnCharAux (sep : Char) : List Char → List Char → List (List Char)
  | [], acc => [acc.reverse]
  | c :: t, acc =>
    if c = sep then acc.reverse :: splitOnCharAux sep t []
    else splitOnCharAux sep t (c :: acc)

/-- Python `s.split(sep)`, single-character separator; `''.split(sep) = ['']`. -/
def splitOnChar (sep : Char) (l : List Char) : List (List Char) :=
  splitOnCharAux sep l []

/-! ## crawlerHPSS.py — Path Metadata Resolver (`hpssUtil`)

`hpssUtil.__init__` turns the path-key schema string into typed keys
(lines 92-99); `_makePicoDstDoc` (lines 234-278) builds the canonical picoDst
document from a full archive path. -/

/-- Decimal value of a digit list (little helper; callers have checked
`Char.isDigit` on every element). -/
def natOfDigits (l : List Char) : Nat :=
  l.foldl (fun a c => a * 10 + (c.toNat - 48)) 0

/-- Python `int(value)` embedded: an optional sign followed by at least one
digit yields the integer, anything else raises (here: `none`).  (CPython
additionally strips surrounding whitespace and allows `_` digit grouping;
no path segment in this repository contains either.) -/
def parseIntPy (s : String) : Option Int :=
  match s.data with
  | '-' :: rest =>
    if !rest.isEmpty && rest.all Char.isDigit then some (-(natOfDigits rest : Int)) else none
  | '+' :: rest =>
    if !rest.isEmpty && rest.all Char.isDigit then some (natOfDigits rest : Int) else none
  | l =>
    if !l.isEmpty && l.all Char.isDigit then some (natOfDigits l : Int) else none

/-- Does Python `float(value)` accept the string?  Modelled as an optional
sign, then digits with at most one decimal point and at least one digit.
(CPython also accepts exponents and `inf`/`nan`; no schema in the repository
declares a float key, so this acceptance test is never exercised.) -/
def floatAccepts (s : String) : Bool :=
  match s.data with
  | [] => false
  | l =>
    let l1 := match l with
      | '+' :: r => r
      | '-' :: r => r
      | r => r
    !l1.isEmpty && l1.all (fun c => c.isDigit || c = '.') &&
      l1.any Char.isDigit && (l1.count '.' ≤ 1)

/-- The source's `self._typeMap = \x7b's': str, 'd': int, 'f': float\x7d` applied to one path
segment.  An unknown type tag is a `KeyError` in the source (here: `none`);
a failing conversion raises (here: `none`).  The value of a float field is
carried as its literal text (`MVal.flt`). -/
def typeCoerce (ty : String) (value : String) : Option MVal :=
  if ty = "s" then some (.str value)
  else if ty = "d" then (parseIntPy value).map .int
  else if ty = "f" then if floatAccepts value then some (.flt value) else none
  else none

/-- In `hpssUtil.__init__`, lines 93-98: one path key of the schema.  A key with
a `%` is split on it (`'day%d' -> ['day', 'd']`); otherwise the type defaults
to `'s'`. -/
def typedPathKey (k : String) : List String :=
  if containsSub k "%" then (splitOnChar '%' k.data).map String.mk else [k, "s"]

/-- In `hpssUtil.__init__`: the full schema, split on `os.path.sep` (`'/'`). -/
def typedPathKeysOf (schema : String) : List (List String) :=
  (splitOnChar '/' schema.data).map (fun part => typedPathKey (String.mk part))

/-- In `_makePicoDstDoc`, lines 253-258: zip the typed path keys against the
path segments and coerce each segment to its declared type, building the
STAR-details dictionary (later bindings of a repeated name overwrite, as for
a Python `dict`).  `zip` silently truncates to the shorter list — there is no
segment-count check in the source.  A failing coercion (or a malformed typed
key) raises, aborting the whole dictionary (here: `none`). -/
def makeStarDetails (tks : List (List String)) (tokens : List String) : Option MDoc :=
  (tks.zip tokens).foldl
    (fun acc kv =>
      match acc with
      | none => none
      | some d =>
        match kv.1.get? 0, kv.1.get? 1 with
        | some name, some ty => (typeCoerce ty kv.2).map (fun v => setField name v d)
        | _, _ => none)
    (some [])

/-! ### The stream regex

`_makePicoDstDoc` lines 260-272 compile `(st_.*)_<runnumber>` and `re.split`
the file name with it.  The pattern is literal except for the greedy `.*`
(path segments contain no newline), so a match starting at `i` is: the
literal `st_` at `i`, then the longest middle part such that `_<runStr>`
follows it.  `re.split` with one capturing group returns
`[before, group, after]` for a single match; the source then requires
exactly 3 parts with an empty first part. -/

/-- All indices of `l` at which `pat` occurs. -/
def occIndices (pat l : List Char) : List Nat :=
  (List.range (l.length + 1)).filter (fun i => pat.isPrefixOf (l.drop i))

/-- Leftmost match of `(st_.*)_<runStr>` in the haystack, scanning from
index `i`: returns (start index, captured group, total match length).
Greediness of `.*` picks the rightmost following occurrence of
`'_' :: runStr`. -/
def streamMatchAux (runStr : List Char) : List Char → Nat → Option (Nat × List Char × Nat)
  | [], _ => none
  | c :: t, i =>
    if ("st_".data).isPrefixOf (c :: t) then
      match (occIndices ('_' :: runStr) ((c :: t).drop 3)).getLast? with
      | some k =>
        some (i, "st_".data ++ ((c :: t).drop 3).take k, 3 + k + 1 + runStr.length)
      | none => streamMatchAux runStr t (i + 1)
    else streamMatchAux runStr t (i + 1)

/-- The `re.split` of the stream pattern: fuelled recursion over the haystack
(every match consumes at least 4 characters, so the fuel never runs out). -/
def streamSplitAux (runStr : List Char) : Nat → List Char → List (List Char)
  | 0, l => [l]
  | fuel + 1, l =>
    match streamMatchAux runStr l 0 with
    | none => [l]
    | some (i, grp, mlen) => l.take i :: grp :: streamSplitAux runStr fuel (l.drop (i + mlen))

/-- Python `re.split(regexStream, fileName)`. -/
def streamSplit (runStr l : List Char) : List (List Char) :=
  streamSplitAux runStr (l.length + 1) l

/-- In `_makePicoDstDoc` line 238: start of the STAR naming convention.
Python's `str.find` returns `-1` when `"/Run"` does not occur, and the
source adds 1, so the slice then starts at index 0 and keeps the whole
path. -/
def picoIdxBasePath (fileFullPath : List Char) : Nat :=
  match strFind "/Run".data fileFullPath with
  | none => 0
  | some i => i + 1

/-- The canonical relative path: `fileFullPath[idxBasePath:]`. -/
def picoRelPath (fileFullPath : List Char) : List Char :=
  fileFullPath.drop (picoIdxBasePath fileFullPath)

/-- The whole of `_makePicoDstDoc`, lines 234-278.  `tarPath` is
`hpssDoc['fileFullPath']` when called with `isInTarFile=True`, else `none`.
The sub-documents `staging` and `starDetails` are carried flattened with
dotted keys.  The result is `none` exactly when the source raises (a type
coercion fails). -/
def makePicoDstDoc (tks : List (List String)) (dataClass : String)
    (fileFullPath fileSize : String) (tarPath : Option String) : Option MDoc :=
  let fileSuffix := "." ++ dataClass ++ ".root"
  let filePath : String := String.mk (picoRelPath fileFullPath.data)
  let baseDoc : MDoc :=
    [("_id", .str filePath), ("filePath", .str filePath),
     ("fileFullPath", .str fileFullPath), ("fileSize", .str fileSize),
     ("dataClass", .str dataClass), ("isInTarFile", .bool tarPath.isSome),
     ("staging.stageMarkerXRD", .bool false)]
  let baseDoc : MDoc :=
    match tarPath with
    | some tp => baseDoc ++ [("fileFullPathTar", .str tp)]
    | none => baseDoc
  let cleanPathTokenized := (splitOnChar '/' filePath.data).map String.mk
  match makeStarDetails tks cleanPathTokenized with
  | none => none
  | some details =>
    -- `docStarDetails.get('runnumber', '')` interpolated into the pattern
    let runStr : String :=
      match mLookup "runnumber" details with
      | some (.int n) => toString n
      | some (.str s) => s
      | some (.bool b) => toString b
      | some (.flt s) => s
      | none => ""
    let fileName : List Char := (cleanPathTokenized.getLastD "").data
    let parts := streamSplit runStr.data fileName
    let details :=
      if parts.length = 3 ∧ parts.getD 0 [] = [] then
        let withStream := setField "stream" (.str (String.mk (parts.getD 1 []))) details
        -- strippedSuffix = fileNameParts[-1][1:-lengthFileSuffix]
        let lastPart := parts.getLastD []
        let strippedSuffix := (lastPart.take (lastPart.length - fileSuffix.length)).drop 1
        let strippedSuffixParts := splitOnChar '_' strippedSuffix
        let picoType : String :=
          if strippedSuffixParts.length = 2 then String.mk (strippedSuffixParts.getD 0 [])
          else String.mk strippedSuffix
        setField "picoType" (.str picoType) withStream
      else details
    some (baseDoc ++ details.map (fun kv => ("starDetails." ++ kv.1, kv.2)))

/-! ## crawlerHPSS.py — Archive Catalog Store ingestion

`_insertPicoDsts` (lines 282-312) bulk-inserts the picoDst candidates and
routes the rejected duplicates.  The store's unordered bulk insert is
embedded per its contract: every document whose `_id` is already taken is
rejected, every other document is inserted, and the ids actually inserted
are reported back (`ret.inserted_ids`). -/

/-- Unordered `insert_many` against a collection with a unique `_id` index:
returns the new collection contents and the list of inserted ids.  A
document without an `_id` gets a store-generated fresh id (such an id is not
tracked here; `_insertPicoDsts` only consults ids of documents it supplied
itself). -/
def insertMany : List MDoc → List MDoc → List MDoc × List MVal
  | coll, [] => (coll, [])
  | coll, d :: ds =>
    match mLookup "_id" d with
    | some i =>
      if coll.any (fun d' => mLookup "_id" d' = some i) then insertMany coll ds
      else
        let r := insertMany (coll ++ [d]) ds
        (r.1, i :: r.2)
    | none => insertMany (coll ++ [d]) ds

/-- Lines 300-303: for each inserted id, drop the first document carrying it
from the submitted list (the source locates the first list element with that
id and `list.remove`s it). -/
def removeFirstWithId (docs : List MDoc) (i : MVal) : List MDoc :=
  match docs with
  | [] => []
  | d :: rest => if mLookup "_id" d = some i then rest else d :: removeFirstWithId rest i

/-- The canonical (`HPSS_PicoDsts`) and duplicate (`HPSS_Duplicates`)
collections. -/
structure PicoStore where
  pico : List MDoc
  dups : List MDoc
deriving DecidableEq

/-- The `_insertPicoDsts` routine, lines 282-312: insert the batch, subtract the inserted
ids to recover the rejected duplicates, strip their `_id`, and append them to
the duplicates collection.  Total: the uniqueness conflict is routed, never
surfaced to the caller. -/
def insertPicoDsts (st : PicoStore) (listDocs : List MDoc) : PicoStore :=
  if listDocs.isEmpty then st
  else
    let r := insertMany st.pico listDocs
    let remaining := r.2.foldl removeFirstWithId listDocs
    let dupDocs := remaining.map (eraseKey "_id")
    if dupDocs.isEmpty then { pico := r.1, dups := st.dups }
    else { pico := r.1, dups := st.dups ++ dupDocs }

/-- Does the segment coerce under its typed path key?  (`keys[0]`/`keys[1]`
must exist and the `typeCoerce` conversion must succeed.) -/
def segCoerces (keys : List String) (value : String) : Bool :=
  match keys.get? 0, keys.get? 1 with
  | some _, some ty => (typeCoerce ty value).isSome
  | _, _ => false

/-! ## stagerSDMS.py — Staging Directive Compiler and marking pass

`_prepareSet` (lines 151-195) validates and normalizes one request set;
`markFilesToBeStaged` (lines 118-126) first calls `_resetAllStagingMarks`
(lines 129-136) and then applies each set.  The staging state is one
collection of documents per (target, stageTarget) pair.  Note:
`_resetAllStagingMarks` iterates `self._collStage.items()`, and no code ever
assigns `self._collStage` — the registry built by `_addCollections` is
`self._collsStage` (lines 110-115) — so Python attribute lookup raises
`AttributeError` unconditionally there, and with it the whole marking pass
dies before resetting or marking anything.  The embedding keeps this error
path explicit (`Except`), rather than repairing the attribute name. -/

def listOfStageTargets : List String := ["XRD", "Disk"]

def listOfQueryItems : List String :=
  ["runyear", "system", "energy", "trigger", "production", "day", "runnumber", "stream"]

def listOfTargets : List String := ["picoDst", "picoDstJet", "aschmah"]

/-- The marker field name, `"staging.stageMarker" + stageTarget` in the source. -/
def stageMarkerField (stageTarget : String) : String := "staging.stageMarker" ++ stageTarget

/-- One request set from the staging file: a JSON object. -/
abbrev StageSet := List (String × MVal)

/-- Text of a value as Python would print it (used only in error messages). -/
def mvalText : MVal → String
  | .str s => s
  | .int n => toString n
  | .bool b => toString b
  | .flt s => s

/-- In `_prepareSet` lines 185-193: each data-set key either contains the
substring `"starDetails."` (kept as-is — note: substring containment, not a
prefix check), or is a recognized bare query item (rewritten to
`starDetails.<key>`); any other key rejects the whole set. -/
def transformKeys : List (String × MVal) → Except String (List (String × MVal))
  | [] => .ok []
  | (k, v) :: rest =>
    if containsSub k "starDetails." then
      match transformKeys rest with
      | .ok q => .ok ((k, v) :: q)
      | .error e => .error e
    else if listOfQueryItems.contains k then
      match transformKeys rest with
      | .ok q => .ok (("starDetails." ++ k, v) :: q)
      | .error e => .error e
    else .error ("Error reading staging file: Query item does not exist: " ++ k)

/-- The whole of `_prepareSet`, lines 151-195: check `stageTarget` against the tier
enumeration, check `target` against the target enumeration, delete the two
control keys, and normalize the remaining keys.  On success the compiled
directive is (target, stageTarget, predicate). -/
def prepareSet (s : StageSet) : Except String (String × String × List (String × MVal)) :=
  match mLookup "stageTarget" s with
  | none => .error "Error reading staging file: no stageTarget found in set"
  | some (.str stg) =>
    if listOfStageTargets.contains stg then
      match mLookup "target" s with
      | none => .error "Error reading staging file: no target found in set"
      | some (.str tgt) =>
        if listOfTargets.contains tgt then
          match transformKeys (eraseKey "target" (eraseKey "stageTarget" s)) with
          | .ok q => .ok (tgt, stg, q)
          | .error e => .error e
        else .error ("Error reading staging file: Unknown target " ++ tgt)
      | some v => .error ("Error reading staging file: Unknown target " ++ mvalText v)
    else .error ("Error reading staging file: Unknown stageTarget " ++ stg)
  | some v => .error ("Error reading staging file: Unknown stageTarget " ++ mvalText v)

/-- The stage collections: one document list per (target, stageTarget). -/
abbrev StageState := String → String → List MDoc

/-- The bulk update `update_many(stageSet, set targetField True)` on one
collection. -/
def markMatching (tier : String) (q : List (String × MVal)) (docs : List MDoc) : List MDoc :=
  docs.map (fun d =>
    if mongoMatch q d then setField (stageMarkerField tier) (.bool true) d else d)

/-- The `_resetAllStagingMarks` method, lines 129-136.  Its first statement
iterates `self._collStage.items()` — but no code ever assigns
`self._collStage` (the registry built by `_addCollections`, lines 110-115,
is `self._collsStage`, and nothing else creates the attribute).  Python
attribute lookup therefore raises `AttributeError` unconditionally, before
any collection is touched: the method never resets a single mark.  The
embedding returns exactly that error and no state. -/
def resetAllStagingMarks (_ : StageState) : Except String StageState :=
  .error "AttributeError: stagerSDMS object has no attribute _collStage"

/-- One iteration of the `markFilesToBeStaged` loop: a set that fails
`_prepareSet` is skipped (`continue`); a compiled set bulk-updates its own
(target, stageTarget) collection. -/
def applyOneSet (σ : StageState) (s : StageSet) : StageState :=
  match prepareSet s with
  | .error _ => σ
  | .ok (tgt, tier, q) =>
    fun a b => if tgt = a ∧ tier = b then markMatching tier q (σ a b) else σ a b

/-- The `markFilesToBeStaged` pass, lines 118-126: first the reset (line
121), then the per-set loop (lines 123-126).  The `AttributeError` raised by
`_resetAllStagingMarks` is not caught anywhere, so it propagates and the
loop is never reached. -/
def markFilesToBeStaged (σ : StageState) (sets : List StageSet) : Except String StageState :=
  match resetAllStagingMarks σ with
  | .error e => .error e
  | .ok σ₀ => .ok (sets.foldl applyOneSet σ₀)

/-! ## crawlerXRD.py — Replica Tracker (`crawlerXRD.process`, lines 85-161)

One observed local file, as delivered by the filesystem walk: the full local
path, the path relative to the working directory, whether `os.stat` on it
succeeds (the backing link is valid), its size and the backing disk. -/

structure XFile where
  fileFullPath : String
  filePath : String
  statOk : Bool
  fileSize : Int
  disk : String
deriving DecidableEq

/-- An entry of the per-target "missing" sub-collection: either a full
document flagged `issue: brokenLink` (inserted mid-walk, lines 136-141) or a
bare believed-resident path left over at the end (line 161). -/
inductive MissEntry where
  | broken (doc : MDoc)
  | absent (path : String)
deriving DecidableEq

/-- The document built for one observed file, lines 127-144: the base
document (fileSize -1, empty disk), then on a successful `stat` the real
size and disk, and on a failing `stat` the `brokenLink` issue marker. -/
def xrdDoc (nodeName target : String) (f : XFile) : MDoc :=
  let doc : MDoc :=
    [("fileFullPath", .str f.fileFullPath), ("filePath", .str f.filePath),
     ("storage.location", .str "XRD"), ("storage.detail", .str nodeName),
     ("storage.disk", .str ""), ("target", .str target), ("fileSize", .int (-1))]
  if f.statOk then
    setField "storage.disk" (.str f.disk) (setField "fileSize" (.int f.fileSize) doc)
  else
    setField "issue" (.str "brokenLink") doc

/-- One iteration of the walk loop (lines 124-153) over the running state
(remaining believed-resident set, new-file list, missing-entry list):
a broken link is recorded immediately; a believed path is confirmed and
removed from the believed set; anything else is a new file. -/
def xrdStep (nodeName target : String)
    (st : List String × List MDoc × List MissEntry) (f : XFile) :
    List String × List MDoc × List MissEntry :=
  if !f.statOk then
    (st.1, st.2.1, st.2.2 ++ [.broken (xrdDoc nodeName target f)])
  else if st.1.contains f.filePath then
    (st.1.erase f.filePath, st.2.1, st.2.2)
  else
    (st.1, st.2.1 ++ [xrdDoc nodeName target f], st.2.2)

/-- The `crawlerXRD.process` pass, lines 85-161, for one node and target: if the
working directory is missing every believed path is immediately missing
(lines 105-109); otherwise walk the observed files and finally queue the
new files and the unconfirmed believed paths.  Returns (contents queued to
the "new" sub-collection, contents queued to the "missing" sub-collection). -/
def processXRD (nodeName target : String) (workDirExists : Bool)
    (believed : List String) (walk : List XFile) : List MDoc × List MissEntry :=
  if !workDirExists then ([], believed.map .absent)
  else
    let st := walk.foldl (xrdStep nodeName target) (believed, [], [])
    (st.2.1, st.2.2 ++ st.1.map .absent)

/-! ## crawlerHPSS.py — per-file crawl step (`_parseSubFolder`, lines 153-172) -/

/-- One parsed `ls -lR` line as `_parseLine` returns it (lines 175-196). -/
structure HFile where
  fileFullPath : String
  fileSize : String
  fileType : String
deriving DecidableEq

/-- The `find_one_and_update({'fileFullPath': ...}, {'$set': {'lastSeen':
today}, '$setOnInsert': doc}, upsert=True)` of line 157: the archive-file
collection stores each document with its `lastSeen` date.  On a hit, only
the first matching document's `lastSeen` is set and the pre-update document
is returned; on a miss the new document is inserted and `None` returned. -/
def fOAUpsert : List (HFile × String) → HFile → String →
    List (HFile × String) × Option (HFile × String)
  | [], doc, today => ([(doc, today)], none)
  | (d, seen) :: rest, doc, today =>
    if d.fileFullPath = doc.fileFullPath then ((d, today) :: rest, some (d, seen))
    else
      let r := fOAUpsert rest doc today
      ((d, seen) :: r.1, r.2)

/-- The `_parseTarFile` routine, lines 199-231: the container listing (delivered by the
external `htar` collaborator as (path-within-container, size) entries) is
filtered to the data-class suffix and each entry becomes a picoDst document
with `isInTarFile=True` and the container's path. -/
def parseTarFile (tks : List (List String)) (dataClass : String) (hpssDoc : HFile)
    (entries : List (String × String)) : Option (List MDoc) :=
  let fileSuffix := "." ++ dataClass ++ ".root"
  (entries.filter (fun e => fileSuffix.data.isSuffixOf e.1.data)).mapM
    (fun e => makePicoDstDoc tks dataClass e.1 e.2 (some hpssDoc.fileFullPath))

/-- Lines 153-169, the body run for one parsed file line: upsert into the
archive-file collection; when the document was already there (`ret` truthy)
`continue` — no candidates; when newly inserted, a picoDst file becomes one
candidate and a tar file is expanded via its listing.  Returns the updated
collection and the produced CanonicalRecord candidates (`none` = an
exception propagated out of `_makePicoDstDoc`). -/
def stepFile (tks : List (List String)) (dataClass today : String)
    (coll : List (HFile × String)) (doc : HFile) (tarEntries : List (String × String)) :
    List (HFile × String) × Option (List MDoc) :=
  let r := fOAUpsert coll doc today
  match r.2 with
  | some _ => (r.1, some [])
  | none =>
    if doc.fileType = "picoDst" then
      (r.1, (makePicoDstDoc tks dataClass doc.fileFullPath doc.fileSize none).map (fun d => [d]))
    else if doc.fileType = "tar" then
      (r.1, parseTarFile tks dataClass doc tarEntries)
    else (r.1, some [])

/-! ## Container-aware expansion of the stage list (spec §4.5 step 4) -/

/-- A staging directive handed to the transfer executor: stage one file, or
stage a whole tar container. -/
inductive StageDirective where
  | file (path : String)
  | container (tarPath : String)
deriving DecidableEq

/-- First-occurrence duplicate removal (helper for the container grouping). -/
def firstUnique (seen : List String) : List String → List String
  | [] => []
  | c :: t =>
    if seen.contains c then firstUnique seen t else c :: firstUnique (c :: seen) t

/-- How many members of `toStage` are backed by container `c`.  `toStage`
entries are (canonical relative path, backing container path if
tar-contained). -/
def stagedInContainer (toStage : List (String × Option String)) (c : String) : Nat :=
  (toStage.filter (fun e => e.2 = some c)).length

/-- Modelled from the spec: the container-staging threshold rule of §4.5
step 4 / §8.  Missing from the source: `prepareListOfFilesToBeStaged`
(stagerSDMS.py lines 197-251) leaves this logic as unfinished commentary —
a pseudocode block with syntax errors — and never builds any stage list.
Per the spec's words: the containers whose fraction of data-class entries
appearing in `toStage` exceeds the threshold (`count/total > pct/100`,
default pct = 25, strict at the boundary). -/
def wholeContainers (thresholdPct : Nat) (containerEntries : String → Nat)
    (toStage : List (String × Option String)) : List String :=
  (firstUnique [] (toStage.filterMap Prod.snd)).filter
    (fun c => stagedInContainer toStage c * 100 > thresholdPct * containerEntries c)

/-- Modelled from the spec: container-aware expansion of `toStage` (§4.5
step 4, missing from the source as described at `wholeContainers`): members
backed by an over-threshold container are replaced by a single
stage-whole-container directive for it; everything else keeps its per-file
directive. -/
def expandContainers (thresholdPct : Nat) (containerEntries : String → Nat)
    (toStage : List (String × Option String)) : List StageDirective :=
  let whole := wholeContainers thresholdPct containerEntries toStage
  (toStage.filter (fun e =>
      match e.2 with
      | none => true
      | some c => !whole.contains c)).map (fun e => .file e.1)
    ++ whole.map .container

/-! ## Theorems -/

@[simp] theorem mLookup_setField_self (k : String) (v : MVal) (d : MDoc) :
    mLookup k (setField k v d) = some v := by
  induction d with
  | nil => simp [setField, mLookup]
  | cons kv rest ih =>
    obtain ⟨k', w⟩ := kv
    by_cases h : k' = k <;> simp [setField, mLookup, h, ih]

theorem mLookup_setField_ne {k k' : String} (h : k' ≠ k) (v : MVal) (d : MDoc) :
    mLookup k' (setField k v d) = mLookup k' d := by
  have hkk' : k ≠ k' := fun h' => h h'.symm
  induction d with
  | nil => simp [setField, mLookup, hkk']
  | cons kv rest ih =>
    obtain ⟨k'', w⟩ := kv
    by_cases h2 : k'' = k
    · subst h2
      simp [setField, mLookup, hkk']
    · by_cases h3 : k'' = k' <;> simp [setField, mLookup, h2, h3, ih, h]

theorem setField_setField (k : String) (v w : MVal) (d : MDoc) :
    setField k v (setField k w d) = setField k v d := by
  induction d with
  | nil => simp [setField]
  | cons kv rest ih =>
    obtain ⟨k', u⟩ := kv
    by_cases h : k' = k <;> simp [setField, h, ih]

/-- Matching is untouched by setting a field that the query does not mention. -/
theorem mongoMatch_setField {q : List (String × MVal)} {k : String}
    (h : ∀ kv ∈ q, kv.1 ≠ k) (v : MVal) (d : MDoc) :
    mongoMatch q (setField k v d) = mongoMatch q d := by
  induction q with
  | nil => rfl
  | cons kv rest ih =>
    have h1 : kv.1 ≠ k := h kv (List.mem_cons_self _ _)
    have h2 : ∀ kv' ∈ rest, kv'.1 ≠ k := fun kv' hkv' => h kv' (List.mem_cons_of_mem _ hkv')
    have ih' := ih h2
    simp only [mongoMatch, List.all_cons] at ih' ⊢
    rw [mLookup_setField_ne h1, ih']

theorem strFindAux_none {sub : List Char} :
    ∀ (l : List Char) (i : Nat), strFindAux sub l i = none →
      ∀ j, sub.isPrefixOf (l.drop j) = false := by
  intro l
  induction l with
  | nil =>
    intro i h j
    cases hp : sub.isPrefixOf ([] : List Char) with
    | false => simpa using hp
    | true => simp [strFindAux, hp] at h
  | cons c t ih =>
    intro i h j
    cases hp : sub.isPrefixOf (c :: t) with
    | true => simp [strFindAux, hp] at h
    | false =>
      simp only [strFindAux, hp, Bool.false_eq_true, if_false] at h
      cases j with
      | zero => simpa using hp
      | succ j' => exact ih (i + 1) h j'

theorem strFindAux_some {sub : List Char} :
    ∀ (l : List Char) (i j : Nat), strFindAux sub l i = some j →
      i ≤ j ∧ sub.isPrefixOf (l.drop (j - i)) = true ∧
        ∀ m, m < j - i → sub.isPrefixOf (l.drop m) = false := by
  intro l
  induction l with
  | nil =>
    intro i j h
    cases hp : sub.isPrefixOf ([] : List Char) with
    | false => simp [strFindAux, hp] at h
    | true =>
      simp only [strFindAux, hp, if_true] at h
      cases h
      refine ⟨Nat.le_refl _, ?_, ?_⟩
      · simpa using hp
      · intro m hm; omega
  | cons c t ih =>
    intro i j h
    cases hp : sub.isPrefixOf (c :: t) with
    | true =>
      simp only [strFindAux, hp, if_true] at h
      cases h
      refine ⟨Nat.le_refl _, ?_, ?_⟩
      · simpa using hp
      · intro m hm; omega
    | false =>
      simp only [strFindAux, hp, Bool.false_eq_true, if_false] at h
      obtain ⟨hle, hpre, hmin⟩ := ih (i + 1) j h
      refine ⟨by omega, ?_, ?_⟩
      · have heq : j - i = (j - (i + 1)) + 1 := by omega
        rw [heq]
        simpa using hpre
      · intro m hm
        cases m with
        | zero => simpa using hp
        | succ m' =>
          have hm' : m' < j - (i + 1) := by omega
          simpa using hmin m' hm'

theorem strFind_none {sub l : List Char} (h : strFind sub l = none) :
    ∀ j, occursAt sub l j = false :=
  fun j => strFindAux_none l 0 h j

theorem strFind_some {sub l : List Char} {i : Nat} (h : strFind sub l = some i) :
    occursAt sub l i = true ∧ ∀ m, m < i → occursAt sub l m = false := by
  obtain ⟨_, hpre, hmin⟩ := strFindAux_some l 0 i h
  exact ⟨by simpa [occursAt] using hpre, fun m hm => by simpa [occursAt] using hmin m (by omega)⟩

theorem makeStarDetails_foldl_none (l : List (List String × String)) :
    l.foldl
      (fun acc kv =>
        match acc with
        | none => none
        | some d =>
          match kv.1.get? 0, kv.1.get? 1 with
          | some name, some ty => (typeCoerce ty kv.2).map (fun v => setField name v d)
          | _, _ => none)
      none = none := by
  induction l with
  | nil => rfl
  | cons kv rest ih => simpa using ih

theorem segCoerces_eq_isSome {keys : List String} {name ty : String} (value : String)
    (h0 : keys.get? 0 = some name) (h1 : keys.get? 1 = some ty) :
    segCoerces keys value = (typeCoerce ty value).isSome := by
  unfold segCoerces
  rw [h0, h1]

theorem segCoerces_eq_false_of_snd {keys : List String} {name : String} (value : String)
    (h0 : keys.get? 0 = some name) (h1 : keys.get? 1 = none) :
    segCoerces keys value = false := by
  unfold segCoerces
  rw [h0, h1]

theorem segCoerces_eq_false_of_fst {keys : List String} (value : String)
    (h0 : keys.get? 0 = none) :
    segCoerces keys value = false := by
  unfold segCoerces
  rw [h0]

theorem makeStarDetails_foldl_spec (l : List (List String × String)) :
    ∀ d : MDoc,
      (l.foldl
        (fun acc kv =>
          match acc with
          | none => none
          | some d =>
            match kv.1.get? 0, kv.1.get? 1 with
            | some name, some ty => (typeCoerce ty kv.2).map (fun v => setField name v d)
            | _, _ => none)
        (some d) = none) ↔ ¬ (∀ kv ∈ l, segCoerces kv.1 kv.2 = true) := by
  induction l with
  | nil => simp
  | cons kv rest ih =>
    intro d
    match h0 : kv.1.get? 0, h1 : kv.1.get? 1 with
    | some name, some ty =>
      cases hc : typeCoerce ty kv.2 with
      | none =>
        simp only [List.foldl_cons, h0, h1, hc, Option.map_none', makeStarDetails_foldl_none]
        constructor
        · intro _ hall
          have hsc := hall kv (List.mem_cons_self _ _)
          rw [segCoerces_eq_isSome kv.2 h0 h1, hc] at hsc
          simp at hsc
        · intro _; trivial
      | some v =>
        simp only [List.foldl_cons, h0, h1, hc, Option.map_some', ih]
        constructor
        · intro hex hall
          exact hex (fun kv' hkv' => hall kv' (List.mem_cons_of_mem _ hkv'))
        · intro hall hrest
          apply hall
          intro kv' hkv'
          rcases List.mem_cons.mp hkv' with h | h
          · subst h
            rw [segCoerces_eq_isSome _ h0 h1, hc]
            rfl
          · exact hrest kv' h
    | some name, none =>
      simp only [List.foldl_cons, h0, h1, makeStarDetails_foldl_none]
      constructor
      · intro _ hall
        have hsc := hall kv (List.mem_cons_self _ _)
        rw [segCoerces_eq_false_of_snd kv.2 h0 h1] at hsc
        exact Bool.false_ne_true hsc
      · intro _; trivial
    | none, h1x =>
      simp only [List.foldl_cons, h0, makeStarDetails_foldl_none]
      constructor
      · intro _ hall
        have hsc := hall kv (List.mem_cons_self _ _)
        rw [segCoerces_eq_false_of_fst kv.2 h0] at hsc
        exact Bool.false_ne_true hsc
      · intro _; trivial

theorem zip_append_left {α β : Type} :
    ∀ (l : List α) (l₂ extra : List β), l.length ≤ l₂.length →
      l.zip (l₂ ++ extra) = l.zip l₂ := by
  intro l
  induction l with
  | nil => intro l₂ extra _; rfl
  | cons a t ih =>
    intro l₂ extra h
    cases l₂ with
    | nil => simp at h
    | cons b t₂ =>
      simp only [List.cons_append, List.zip_cons_cons, List.cons.injEq, true_and]
      exact ih t₂ extra (by simpa using h)

/-- C4 — the claim's `SchemaMismatch` half is false on the code: the schema
`[["runyear","s"]]` has 1 field while `Run10/149/file.picoDst.root` has 3
segments, yet the resolver succeeds and silently yields the partial metadata
`{runyear: "Run10"}`: there is no segment-count check in `_makePicoDstDoc`
(lines 253-258 zip-truncate). -/
theorem claim4_counterexample :
    (splitOnChar '/' "Run10/149/file.picoDst.root".data).length = 3 ∧
    ([["runyear", "s"]] : List (List String)).length = 1 ∧
    makeStarDetails [["runyear", "s"]]
        ((splitOnChar '/' "Run10/149/file.picoDst.root".data).map String.mk)
      = some [("runyear", .str "Run10")] := by
  decide

/-- C4 (amended) — the Path Metadata Resolver fails (the coercion exception
propagates, embedded as `none`) exactly when some positionally-zipped
(schema-field, segment) pair cannot be coerced; a segment count differing
from the schema field count is NOT an error: extra segments beyond the
schema are silently ignored (zip truncation), producing metadata only for
the zipped pairs. -/
theorem claim4_amended :
    (∀ (tks : List (List String)) (tokens : List String),
        makeStarDetails tks tokens = none ↔
          ¬ (∀ kv ∈ tks.zip tokens, segCoerces kv.1 kv.2 = true)) ∧
    (∀ (tks : List (List String)) (tokens extra : List String),
        tks.length ≤ tokens.length →
        makeStarDetails tks (tokens ++ extra) = makeStarDetails tks tokens) := by
  constructor
  · intro tks tokens
    exact makeStarDetails_foldl_spec (tks.zip tokens) []
  · intro tks tokens extra h
    unfold makeStarDetails
    rw [zip_append_left tks tokens extra h]

theorem claim4_amended_witness :
    (makeStarDetails [["day", "d"]] ["xyz"] = none) ∧
    (([["runyear", "s"]] : List (List String)).length ≤ (["Run10"] : List String).length ∧
      makeStarDetails [["runyear", "s"]] (["Run10"] ++ ["149", "extra"])
        = makeStarDetails [["runyear", "s"]] ["Run10"]) :=
  ⟨(claim4_amended.1 [["day", "d"]] ["xyz"]).mpr (by decide),
   by decide,
   claim4_amended.2 [["runyear", "s"]] ["Run10"] ["149", "extra"] (by decide)⟩

/-- C5 — resolving `Run10/149/11149081/file.picoDst.root` against the schema
`[["runyear","s"],["day","d"],["runnumber","d"]]` yields exactly
`{runyear: "Run10"(string), day: 149(int), runnumber: 11149081(int)}`, and
no `stream`/`picoType` fields (the file name never matches the
`(st_.*)_<runnumber>` pattern). -/
theorem claim5_resolver_scenario :
    makePicoDstDoc [["runyear", "s"], ["day", "d"], ["runnumber", "d"]] "picoDst"
        "Run10/149/11149081/file.picoDst.root" "5103599" none
      = some [("_id", .str "Run10/149/11149081/file.picoDst.root"),
              ("filePath", .str "Run10/149/11149081/file.picoDst.root"),
              ("fileFullPath", .str "Run10/149/11149081/file.picoDst.root"),
              ("fileSize", .str "5103599"),
              ("dataClass", .str "picoDst"),
              ("isInTarFile", .bool false),
              ("staging.stageMarkerXRD", .bool false),
              ("starDetails.runyear", .str "Run10"),
              ("starDetails.day", .int 149),
              ("starDetails.runnumber", .int 11149081)] ∧
    ∀ d, makePicoDstDoc [["runyear", "s"], ["day", "d"], ["runnumber", "d"]] "picoDst"
        "Run10/149/11149081/file.picoDst.root" "5103599" none = some d →
      mLookup "starDetails.stream" d = none ∧ mLookup "starDetails.picoType" d = none := by
  refine ⟨by decide, ?_⟩
  intro d hd
  have : some d =
      makePicoDstDoc [["runyear", "s"], ["day", "d"], ["runnumber", "d"]] "picoDst"
        "Run10/149/11149081/file.picoDst.root" "5103599" none := hd.symm
  rw [(by decide :
    makePicoDstDoc [["runyear", "s"], ["day", "d"], ["runnumber", "d"]] "picoDst"
        "Run10/149/11149081/file.picoDst.root" "5103599" none
      = some [("_id", .str "Run10/149/11149081/file.picoDst.root"),
              ("filePath", .str "Run10/149/11149081/file.picoDst.root"),
              ("fileFullPath", .str "Run10/149/11149081/file.picoDst.root"),
              ("fileSize", .str "5103599"),
              ("dataClass", .str "picoDst"),
              ("isInTarFile", .bool false),
              ("staging.stageMarkerXRD", .bool false),
              ("starDetails.runyear", .str "Run10"),
              ("starDetails.day", .int 149),
              ("starDetails.runnumber", .int 11149081)])] at this
  cases this
  exact ⟨by decide, by decide⟩

theorem claim5_resolver_scenario_witness :
    mLookup "starDetails.stream"
        [("_id", MVal.str "Run10/149/11149081/file.picoDst.root"),
         ("filePath", MVal.str "Run10/149/11149081/file.picoDst.root"),
         ("fileFullPath", MVal.str "Run10/149/11149081/file.picoDst.root"),
         ("fileSize", MVal.str "5103599"),
         ("dataClass", MVal.str "picoDst"),
         ("isInTarFile", MVal.bool false),
         ("staging.stageMarkerXRD", MVal.bool false),
         ("starDetails.runyear", MVal.str "Run10"),
         ("starDetails.day", MVal.int 149),
         ("starDetails.runnumber", MVal.int 11149081)] = none ∧
    mLookup "starDetails.picoType"
        [("_id", MVal.str "Run10/149/11149081/file.picoDst.root"),
         ("filePath", MVal.str "Run10/149/11149081/file.picoDst.root"),
         ("fileFullPath", MVal.str "Run10/149/11149081/file.picoDst.root"),
         ("fileSize", MVal.str "5103599"),
         ("dataClass", MVal.str "picoDst"),
         ("isInTarFile", MVal.bool false),
         ("staging.stageMarkerXRD", MVal.bool false),
         ("starDetails.runyear", MVal.str "Run10"),
         ("starDetails.day", MVal.int 149),
         ("starDetails.runnumber", MVal.int 11149081)] = none :=
  claim5_resolver_scenario.2
    [("_id", MVal.str "Run10/149/11149081/file.picoDst.root"),
     ("filePath", MVal.str "Run10/149/11149081/file.picoDst.root"),
     ("fileFullPath", MVal.str "Run10/149/11149081/file.picoDst.root"),
     ("fileSize", MVal.str "5103599"),
     ("dataClass", MVal.str "picoDst"),
     ("isInTarFile", MVal.bool false),
     ("staging.stageMarkerXRD", MVal.bool false),
     ("starDetails.runyear", MVal.str "Run10"),
     ("starDetails.day", MVal.int 149),
     ("starDetails.runnumber", MVal.int 11149081)] (by decide)

/-- C10 — the canonical relative path (`_id` and `filePath`) is the suffix of
the full archive path starting right after the first occurrence of `"/Run"`
(the leading slash dropped); when `"/Run"` does not occur the whole full path
is kept (Python `find` yields `-1`, plus 1 gives slice start 0). -/
theorem claim10_relpath (f : List Char) :
    (strFind "/Run".data f = none →
      (∀ i, occursAt "/Run".data f i = false) ∧ picoRelPath f = f) ∧
    (∀ i, strFind "/Run".data f = some i →
      occursAt "/Run".data f i = true ∧
      (∀ j, j < i → occursAt "/Run".data f j = false) ∧
      picoRelPath f = f.drop (i + 1)) := by
  constructor
  · intro h
    refine ⟨strFind_none h, ?_⟩
    simp [picoRelPath, picoIdxBasePath, h]
  · intro i h
    obtain ⟨hocc, hmin⟩ := strFind_some h
    refine ⟨hocc, hmin, ?_⟩
    simp [picoRelPath, picoIdxBasePath, h]

theorem claim10_relpath_witness :
    (picoRelPath "picodsts/x.picoDst.root".data = "picodsts/x.picoDst.root".data) ∧
    (picoRelPath "/nersc/projects/starofl/picodsts/Run10/x".data
      = "/nersc/projects/starofl/picodsts/Run10/x".data.drop 33) :=
  ⟨((claim10_relpath _).1 (by decide)).2,
   ((claim10_relpath _).2 32 (by decide)).2.2⟩

/-- C1 — ingesting a canonical relative path `P` once and then again with a
different size leaves exactly one CanonicalRecord for `P` (the first
document, hence the original size), and appends exactly one DuplicateRecord
— the second document stripped of its `_id` — to the duplicates collection.
`insertPicoDsts` is total (the store reports the conflict per item and the
code routes it); no error reaches the caller. -/
theorem claim1_dup_routing (st₀ : PicoStore) (d₁ d₂ : MDoc) (P s₁ s₂ : String)
    (hid1 : mLookup "_id" d₁ = some (.str P))
    (hid2 : mLookup "_id" d₂ = some (.str P))
    (hs1 : mLookup "fileSize" d₁ = some (.str s₁))
    (hs2 : mLookup "fileSize" d₂ = some (.str s₂))
    (hne : s₁ ≠ s₂)
    (hfresh : st₀.pico.any (fun d => mLookup "_id" d = some (.str P)) = false) :
    (insertPicoDsts (insertPicoDsts st₀ [d₁]) [d₂]).pico.filter
        (fun d => mLookup "_id" d = some (.str P)) = [d₁] ∧
    (insertPicoDsts (insertPicoDsts st₀ [d₁]) [d₂]).dups
      = st₀.dups ++ [eraseKey "_id" d₂] := by
  have hstep1 : insertPicoDsts st₀ [d₁] = { pico := st₀.pico ++ [d₁], dups := st₀.dups } := by
    simp [insertPicoDsts, insertMany, hid1, hfresh, removeFirstWithId]
  have hany2 : (st₀.pico ++ [d₁]).any (fun d => mLookup "_id" d = some (.str P)) = true := by
    simp [List.any_append, hid1]
  have hstep2 : insertPicoDsts { pico := st₀.pico ++ [d₁], dups := st₀.dups } [d₂]
      = { pico := st₀.pico ++ [d₁], dups := st₀.dups ++ [eraseKey "_id" d₂] } := by
    simp [insertPicoDsts, insertMany, hid2, hany2]
  rw [hstep1, hstep2]
  refine ⟨?_, rfl⟩
  have hnone : ∀ d ∈ st₀.pico, ¬ (mLookup "_id" d = some (.str P)) := by
    intro d hd
    have h' := List.any_eq_false.mp hfresh d hd
    simpa using h'
  simp only [List.filter_append]
  rw [List.filter_eq_nil_iff.mpr (by intro d hd; simpa using hnone d hd)]
  simp [List.filter, hid1]

theorem strFind_some_zero_of_isPrefixOf {sub l : List Char}
    (h : sub.isPrefixOf l = true) : strFind sub l = some 0 := by
  cases l with
  | nil => simp [strFind, strFindAux, h]
  | cons c t => simp [strFind, strFindAux, h]

theorem isPrefixOf_append_self : ∀ (l r : List Char), l.isPrefixOf (l ++ r) = true := by
  intro l r
  induction l with
  | nil => simp
  | cons c t ih => simp [List.isPrefixOf, ih]

theorem containsSub_append_left (k : String) :
    containsSub ("starDetails." ++ k) "starDetails." = true := by
  unfold containsSub
  rw [String.data_append]
  rw [strFind_some_zero_of_isPrefixOf (isPrefixOf_append_self _ _)]
  rfl

/-- Every key of a successfully transformed query contains the
`"starDetails."` substring. -/
theorem transformKeys_keys :
    ∀ (l : List (String × MVal)) (q : List (String × MVal)), transformKeys l = .ok q →
      ∀ kv ∈ q, containsSub kv.1 "starDetails." = true := by
  intro l
  induction l with
  | nil =>
    intro q h kv hkv
    simp only [transformKeys] at h
    cases h
    simp at hkv
  | cons kv0 rest ih =>
    intro q h kv hkv
    obtain ⟨k, v⟩ := kv0
    by_cases hc : containsSub k "starDetails." = true
    · simp only [transformKeys, hc, if_true] at h
      cases hr : transformKeys rest with
      | ok q' =>
        rw [hr] at h
        cases h
        rcases List.mem_cons.mp hkv with h' | h'
        · subst h'; exact hc
        · exact ih q' hr kv h'
      | error e => rw [hr] at h; cases h
    · by_cases hq : listOfQueryItems.contains k = true
      · simp only [transformKeys, hc, hq, if_true, Bool.false_eq_true, if_false] at h
        cases hr : transformKeys rest with
        | ok q' =>
          rw [hr] at h
          cases h
          rcases List.mem_cons.mp hkv with h' | h'
          · subst h'; exact containsSub_append_left k
          · exact ih q' hr kv h'
        | error e => rw [hr] at h; cases h
      · simp only [transformKeys, hc, hq, Bool.false_eq_true, if_false] at h
        cases h

/-- A key that is neither `starDetails.`-containing nor a recognized query
item makes the whole transformation fail. -/
theorem transformKeys_error_of_bad :
    ∀ (l : List (String × MVal)) (kv : String × MVal), kv ∈ l →
      containsSub kv.1 "starDetails." = false → listOfQueryItems.contains kv.1 = false →
      ∃ e, transformKeys l = .error e := by
  intro l
  induction l with
  | nil => intro kv h; simp at h
  | cons kv0 rest ih =>
    intro kv hmem hc hq
    obtain ⟨k, v⟩ := kv0
    rcases List.mem_cons.mp hmem with h' | h'
    · subst h'
      refine ⟨"Error reading staging file: Query item does not exist: " ++ k, ?_⟩
      simp only [transformKeys, (hc : containsSub k "starDetails." = false),
        (hq : listOfQueryItems.contains k = false), Bool.false_eq_true, if_false]
    · by_cases hc0 : containsSub k "starDetails." = true
      · obtain ⟨e, he⟩ := ih kv h' hc hq
        refine ⟨e, ?_⟩
        simp only [transformKeys, hc0, if_true, he]
      · by_cases hq0 : listOfQueryItems.contains k = true
        · obtain ⟨e, he⟩ := ih kv h' hc hq
          refine ⟨e, ?_⟩
          simp only [transformKeys, hc0, hq0, if_true, Bool.false_eq_true, if_false, he]
        · refine ⟨"Error reading staging file: Query item does not exist: " ++ k, ?_⟩
          simp only [transformKeys, hc0, hq0, Bool.false_eq_true, if_false]

/-- What a successful `_prepareSet` guarantees: the target and tier are from
the enumerations and every predicate key contains `"starDetails."`. -/
theorem prepareSet_ok {s : StageSet} {t tier : String} {q : List (String × MVal)}
    (h : prepareSet s = .ok (t, tier, q)) :
    listOfTargets.contains t = true ∧ listOfStageTargets.contains tier = true ∧
    transformKeys (eraseKey "target" (eraseKey "stageTarget" s)) = .ok q := by
  unfold prepareSet at h
  cases hst : mLookup "stageTarget" s with
  | none => rw [hst] at h; cases h
  | some v =>
    rw [hst] at h
    cases v with
    | str stg =>
      by_cases hstg : listOfStageTargets.contains stg = true
      · simp only [hstg, if_true] at h
        cases htg : mLookup "target" s with
        | none => rw [htg] at h; cases h
        | some w =>
          rw [htg] at h
          cases w with
          | str tgt =>
            by_cases htgt : listOfTargets.contains tgt = true
            · simp only [htgt, if_true] at h
              cases htr : transformKeys (eraseKey "target" (eraseKey "stageTarget" s)) with
              | ok q' =>
                rw [htr] at h
                cases h
                exact ⟨htgt, hstg, rfl⟩
              | error e => rw [htr] at h; cases h
            · simp only [htgt, Bool.false_eq_true, if_false] at h
              cases h
          | int n => cases h
          | bool b => cases h
          | flt s => cases h
      · simp only [hstg, Bool.false_eq_true, if_false] at h
        cases h
    | int n => cases h
    | bool b => cases h
    | flt s => cases h

theorem claim1_dup_routing_witness :
    (mLookup "_id" [("_id", MVal.str "Run10/a.picoDst.root"), ("fileSize", MVal.str "5")]
        = some (.str "Run10/a.picoDst.root")) ∧
    ((insertPicoDsts (insertPicoDsts ⟨[], []⟩
          [[("_id", MVal.str "Run10/a.picoDst.root"), ("fileSize", MVal.str "5")]])
          [[("_id", MVal.str "Run10/a.picoDst.root"), ("fileSize", MVal.str "7")]]).pico.filter
        (fun d => mLookup "_id" d = some (.str "Run10/a.picoDst.root"))
      = [[("_id", MVal.str "Run10/a.picoDst.root"), ("fileSize", MVal.str "5")]] ∧
    (insertPicoDsts (insertPicoDsts ⟨[], []⟩
          [[("_id", MVal.str "Run10/a.picoDst.root"), ("fileSize", MVal.str "5")]])
          [[("_id", MVal.str "Run10/a.picoDst.root"), ("fileSize", MVal.str "7")]]).dups
      = [] ++ [[("fileSize", MVal.str "7")]]) :=
  ⟨by decide,
   claim1_dup_routing ⟨[], []⟩ _ _ "Run10/a.picoDst.root" "5" "7"
     (by decide) (by decide) (by decide) (by decide) (by decide) (by decide)⟩

/-- C3 — code bug: the reset-then-mark pass never runs.  `markFilesToBeStaged`
calls `_resetAllStagingMarks` first (line 121), and that method reads
`self._collStage` (line 132), an attribute no code ever assigns — the
registry built by `_addCollections` is `self._collsStage` (lines 110-115) —
so it raises `AttributeError` unconditionally: for every catalog state and
every staging file, no staging mark is ever reset and the marking loop is
never reached.  The claimed reset-before-mark ordering is the evident intent
of the method structure (the reset call precedes the loop), but the pass
aborts before doing either. -/
theorem claim3_reset_crashes (σ : StageState) (sets : List StageSet) :
    resetAllStagingMarks σ
      = .error "AttributeError: stagerSDMS object has no attribute _collStage" ∧
    markFilesToBeStaged σ sets
      = .error "AttributeError: stagerSDMS object has no attribute _collStage" :=
  ⟨rfl, rfl⟩

/-- C7 — code bug: the rejection of a bad-tier set is not isolated, because
no set of the configuration is ever applied.  `_prepareSet` on its own would
reject exactly the unrecognized-tier set with the descriptive
`Unknown stageTarget` error, and the loop would `continue` to the siblings —
but `markFilesToBeStaged` raises `AttributeError` inside
`_resetAllStagingMarks` (the unassigned `self._collStage`) before compiling
a single set, so the sibling directive sets are never compiled or applied. -/
theorem claim7_sibling_never_applied (σ : StageState) (s₁ s₂ : List StageSet)
    (bad : StageSet) (stg : String)
    (hlook : mLookup "stageTarget" bad = some (.str stg))
    (hstg : listOfStageTargets.contains stg = false) :
    prepareSet bad = .error ("Error reading staging file: Unknown stageTarget " ++ stg) ∧
    markFilesToBeStaged σ (s₁ ++ bad :: s₂)
      = .error "AttributeError: stagerSDMS object has no attribute _collStage" := by
  refine ⟨?_, rfl⟩
  unfold prepareSet
  rw [hlook]
  simp only [hstg, Bool.false_eq_true, if_false]

theorem claim7_sibling_never_applied_witness :
    prepareSet [("stageTarget", MVal.str "TAPE"), ("target", MVal.str "picoDst")]
      = .error ("Error reading staging file: Unknown stageTarget " ++ "TAPE") ∧
    markFilesToBeStaged (fun _ _ => [])
        ([[("stageTarget", MVal.str "XRD"), ("target", MVal.str "picoDst")]] ++
          [("stageTarget", MVal.str "TAPE"), ("target", MVal.str "picoDst")] ::
          [[("stageTarget", MVal.str "Disk"), ("target", MVal.str "aschmah")]])
      = .error "AttributeError: stagerSDMS object has no attribute _collStage" :=
  claim7_sibling_never_applied (fun _ _ => [])
    [[("stageTarget", MVal.str "XRD"), ("target", MVal.str "picoDst")]]
    [[("stageTarget", MVal.str "Disk"), ("target", MVal.str "aschmah")]]
    [("stageTarget", MVal.str "TAPE"), ("target", MVal.str "picoDst")] "TAPE"
    (by decide) (by decide)

/-- Full characterization of a successful key transformation: kept keys are
exactly those containing the `"starDetails."` substring, recognized bare
keys are namespaced. -/
theorem transformKeys_spec_ok :
    ∀ (l : List (String × MVal)) (q : List (String × MVal)), transformKeys l = .ok q →
      ∀ kv ∈ l,
        (containsSub kv.1 "starDetails." = true ∧ kv ∈ q) ∨
        (containsSub kv.1 "starDetails." = false ∧ listOfQueryItems.contains kv.1 = true ∧
          ("starDetails." ++ kv.1, kv.2) ∈ q) := by
  intro l
  induction l with
  | nil => intro q h kv hkv; simp at hkv
  | cons kv0 rest ih =>
    intro q h kv hkv
    obtain ⟨k, v⟩ := kv0
    by_cases hc : containsSub k "starDetails." = true
    · simp only [transformKeys, hc, if_true] at h
      cases hr : transformKeys rest with
      | ok q' =>
        rw [hr] at h
        cases h
        rcases List.mem_cons.mp hkv with h' | h'
        · subst h'
          exact Or.inl ⟨hc, List.mem_cons_self _ _⟩
        · rcases ih q' hr kv h' with ⟨h1, h2⟩ | ⟨h1, h2, h3⟩
          · exact Or.inl ⟨h1, List.mem_cons_of_mem _ h2⟩
          · exact Or.inr ⟨h1, h2, List.mem_cons_of_mem _ h3⟩
      | error e => rw [hr] at h; cases h
    · by_cases hq : listOfQueryItems.contains k = true
      · simp only [transformKeys, hc, hq, if_true, Bool.false_eq_true, if_false] at h
        cases hr : transformKeys rest with
        | ok q' =>
          rw [hr] at h
          cases h
          rcases List.mem_cons.mp hkv with h' | h'
          · subst h'
            exact Or.inr ⟨Bool.eq_false_iff.mpr hc, hq, List.mem_cons_self _ _⟩
          · rcases ih q' hr kv h' with ⟨h1, h2⟩ | ⟨h1, h2, h3⟩
            · exact Or.inl ⟨h1, List.mem_cons_of_mem _ h2⟩
            · exact Or.inr ⟨h1, h2, List.mem_cons_of_mem _ h3⟩
        | error e => rw [hr] at h; cases h
      · simp only [transformKeys, hc, hq, Bool.false_eq_true, if_false] at h
        cases h

/-- C6 — counterexample to the claim as stated: the key `nostarDetails.day`
is neither namespaced under the structured-metadata prefix (it does not
start with `starDetails.`) nor a recognized bare field name, yet
`_prepareSet` accepts the whole set and keeps the key verbatim, because the
source tests `"starDetails." in key` — substring containment anywhere, not
a prefix check. -/
theorem claim6_counterexample :
    prepareSet [("stageTarget", MVal.str "XRD"), ("target", MVal.str "picoDst"),
        ("nostarDetails.day", MVal.int 149)]
      = .ok ("picoDst", "XRD", [("nostarDetails.day", MVal.int 149)]) ∧
    ("starDetails.".data.isPrefixOf "nostarDetails.day".data) = false ∧
    listOfQueryItems.contains "nostarDetails.day" = false :=
  ⟨rfl, by decide, by decide⟩

/-- C6 (amended) — directive-set validation is all-or-nothing with this key
rule: a key containing the substring `"starDetails."` anywhere is kept
unchanged; a remaining key that is a recognized bare structured-metadata
field name is rewritten to its namespaced form; any other key rejects the
whole set; and a rejected set is never applied to the catalog (it marks
nothing). -/
theorem claim6_amended :
    (∀ (s : StageSet) (t tier : String) (q : List (String × MVal)),
        prepareSet s = .ok (t, tier, q) →
        ∀ kv ∈ eraseKey "target" (eraseKey "stageTarget" s),
          (containsSub kv.1 "starDetails." = true ∧ kv ∈ q) ∨
          (containsSub kv.1 "starDetails." = false ∧
            listOfQueryItems.contains kv.1 = true ∧
            ("starDetails." ++ kv.1, kv.2) ∈ q)) ∧
    (∀ (s : StageSet) (kv : String × MVal),
        kv ∈ eraseKey "target" (eraseKey "stageTarget" s) →
        containsSub kv.1 "starDetails." = false →
        listOfQueryItems.contains kv.1 = false →
        ∃ e, prepareSet s = .error e) ∧
    (∀ (σ : StageState) (s : StageSet) (e : String),
        prepareSet s = .error e → applyOneSet σ s = σ) := by
  refine ⟨?_, ?_, ?_⟩
  · intro s t tier q h kv hkv
    exact transformKeys_spec_ok _ q (prepareSet_ok h).2.2 kv hkv
  · intro s kv hmem hc hq
    cases hp : prepareSet s with
    | error e => exact ⟨e, rfl⟩
    | ok tri =>
      obtain ⟨t, tier, q⟩ := tri
      obtain ⟨-, -, htr⟩ := prepareSet_ok hp
      obtain ⟨e, he⟩ := transformKeys_error_of_bad _ kv hmem hc hq
      rw [he] at htr
      cases htr
  · intro σ s e hp
    unfold applyOneSet
    rw [hp]

theorem claim6_amended_witness :
    (containsSub "my.starDetails.x" "starDetails." = true ∧
      ("my.starDetails.x", MVal.int 1) ∈ [("my.starDetails.x", MVal.int 1)]) ∨
    (containsSub "my.starDetails.x" "starDetails." = false ∧
      listOfQueryItems.contains "my.starDetails.x" = true ∧
      ("starDetails." ++ "my.starDetails.x", MVal.int 1) ∈ [("my.starDetails.x", MVal.int 1)]) :=
  claim6_amended.1
    [("stageTarget", MVal.str "XRD"), ("target", MVal.str "picoDst"),
     ("my.starDetails.x", MVal.int 1)]
    "picoDst" "XRD" [("my.starDetails.x", MVal.int 1)] rfl
    ("my.starDetails.x", MVal.int 1) (by decide)

theorem xrdFold_new_monotone (nodeName target : String) :
    ∀ (walk : List XFile) (st : List String × List MDoc × List MissEntry) (d : MDoc),
      d ∈ st.2.1 → d ∈ (walk.foldl (xrdStep nodeName target) st).2.1 := by
  intro walk
  induction walk with
  | nil => intro st d h; exact h
  | cons g rest ih =>
    intro st d h
    simp only [List.foldl_cons]
    apply ih
    unfold xrdStep
    by_cases hs : g.statOk
    · simp only [hs, Bool.not_true, Bool.false_eq_true, if_false]
      split
      · exact h
      · simp [h]
    · simp [hs, h]

theorem xrdStep_believed_sub (nodeName target : String)
    (st : List String × List MDoc × List MissEntry) (g : XFile) (x : String)
    (h : x ∈ (xrdStep nodeName target st g).1) : x ∈ st.1 := by
  unfold xrdStep at h
  by_cases hs : g.statOk
  · by_cases hc : st.1.contains g.filePath = true
    · simp only [hs, hc, Bool.not_true, Bool.false_eq_true, if_false, if_true] at h
      exact List.mem_of_mem_erase h
    · simp only [hs, hc, Bool.not_true, Bool.false_eq_true, if_false] at h
      exact h
  · simp only [Bool.eq_false_iff.mpr hs, Bool.not_false, if_true] at h
    exact h

theorem xrdFold_new (nodeName target : String) :
    ∀ (walk : List XFile) (st : List String × List MDoc × List MissEntry) (f : XFile),
      f ∈ walk → f.statOk = true → ¬ f.filePath ∈ st.1 →
      xrdDoc nodeName target f ∈ (walk.foldl (xrdStep nodeName target) st).2.1 := by
  intro walk
  induction walk with
  | nil => intro st f h; simp at h
  | cons g rest ih =>
    intro st f hmem hok hnot
    simp only [List.foldl_cons]
    rcases List.mem_cons.mp hmem with h' | h'
    · subst h'
      have hc : st.1.contains f.filePath = false := by
        cases hcc : st.1.contains f.filePath with
        | false => rfl
        | true => exact absurd (List.mem_of_elem_eq_true hcc) hnot
      apply xrdFold_new_monotone
      unfold xrdStep
      simp only [hok, Bool.not_true, Bool.false_eq_true, if_false, hc]
      simp
    · refine ih _ f h' hok (fun hmem' => hnot ?_)
      exact xrdStep_believed_sub nodeName target st g f.filePath hmem'

theorem xrdFold_missing (nodeName target : String) :
    ∀ (walk : List XFile) (st : List String × List MDoc × List MissEntry) (b : String),
      b ∈ st.1 → (∀ f ∈ walk, f.filePath ≠ b) →
      b ∈ (walk.foldl (xrdStep nodeName target) st).1 := by
  intro walk
  induction walk with
  | nil => intro st b h _; exact h
  | cons g rest ih =>
    intro st b hb hne
    simp only [List.foldl_cons]
    refine ih _ b ?_ (fun f hf => hne f (List.mem_cons_of_mem _ hf))
    have hgb : g.filePath ≠ b := hne g (List.mem_cons_self _ _)
    unfold xrdStep
    by_cases hs : g.statOk
    · simp only [hs, Bool.not_true, Bool.false_eq_true, if_false]
      split
      · exact (List.mem_erase_of_ne (fun h => hgb h.symm)).mpr hb
      · exact hb
    · simp [hs, hb]

/-- C8 — replica classification.  Scenario: believed-resident {A, B, C},
observed {A, D} with valid links → "new" = {the D document} and "missing" =
{B, C} as plain absent entries, with no broken-link marker.  In general an
observed valid-link path outside the believed-resident set is queued as
"new", and every believed-resident path never observed during the walk ends
up queued as "missing". -/
theorem claim8_replica_classification :
    (processXRD "node1" "picoDst" true ["A", "B", "C"]
        [⟨"/d/A", "A", true, 10, "data1"⟩, ⟨"/d/D", "D", true, 20, "data2"⟩]
      = ([xrdDoc "node1" "picoDst" ⟨"/d/D", "D", true, 20, "data2"⟩],
         [.absent "B", .absent "C"])) ∧
    (∀ (nodeName target : String) (believed : List String) (walk : List XFile) (f : XFile),
        f ∈ walk → f.statOk = true → ¬ f.filePath ∈ believed →
        xrdDoc nodeName target f ∈ (processXRD nodeName target true believed walk).1) ∧
    (∀ (nodeName target : String) (workDirExists : Bool) (believed : List String)
        (walk : List XFile) (b : String),
        b ∈ believed → (∀ f ∈ walk, f.filePath ≠ b) →
        MissEntry.absent b ∈ (processXRD nodeName target workDirExists believed walk).2) := by
  refine ⟨by decide, ?_, ?_⟩
  · intro nodeName target believed walk f hmem hok hnot
    unfold processXRD
    simp only [Bool.not_true, Bool.false_eq_true, if_false]
    exact xrdFold_new nodeName target walk (believed, [], []) f hmem hok hnot
  · intro nodeName target workDirExists believed walk b hb hne
    unfold processXRD
    cases workDirExists with
    | false =>
      simp only [Bool.not_false, if_true]
      exact List.mem_map_of_mem _ hb
    | true =>
      simp only [Bool.not_true, Bool.false_eq_true, if_false]
      apply List.mem_append_right
      exact List.mem_map_of_mem _ (xrdFold_missing nodeName target walk (believed, [], []) b hb hne)

theorem claim8_replica_classification_witness :
    (xrdDoc "n2" "picoDst" ⟨"/d/E", "E", true, 7, "data"⟩
      ∈ (processXRD "n2" "picoDst" true ["A"] [⟨"/d/E", "E", true, 7, "data"⟩]).1) ∧
    (MissEntry.absent "A"
      ∈ (processXRD "n2" "picoDst" true ["A"] [⟨"/d/E", "E", true, 7, "data"⟩]).2) :=
  ⟨claim8_replica_classification.2.1 "n2" "picoDst" ["A"] [⟨"/d/E", "E", true, 7, "data"⟩]
     ⟨"/d/E", "E", true, 7, "data"⟩ (by decide) (by decide) (by decide),
   claim8_replica_classification.2.2 "n2" "picoDst" true ["A"]
     [⟨"/d/E", "E", true, 7, "data"⟩] "A" (by decide) (by decide)⟩

theorem fOAUpsert_found (doc : HFile) (today : String) :
    ∀ (coll : List (HFile × String)),
      coll.any (fun r => r.1.fileFullPath = doc.fileFullPath) = true →
      (fOAUpsert coll doc today).2.isSome = true ∧
      (fOAUpsert coll doc today).1.map Prod.fst = coll.map Prod.fst ∧
      (∀ (i : Nat) (p : HFile) (s : String), coll.get? i = some (p, s) →
        ∃ s', (fOAUpsert coll doc today).1.get? i = some (p, s') ∧ (s' = s ∨ s' = today)) := by
  intro coll
  induction coll with
  | nil => intro h; simp at h
  | cons r rest ih =>
    intro h
    obtain ⟨d, seen⟩ := r
    by_cases hd : d.fileFullPath = doc.fileFullPath
    · have hres : fOAUpsert ((d, seen) :: rest) doc today
          = ((d, today) :: rest, some (d, seen)) := by
        simp [fOAUpsert, hd]
      refine ⟨by rw [hres]; rfl, by rw [hres]; rfl, ?_⟩
      intro i p s hi
      cases i with
      | zero =>
        simp only [List.get?] at hi
        cases hi
        exact ⟨today, by rw [hres]; rfl, Or.inr rfl⟩
      | succ i' =>
        simp only [List.get?] at hi
        refine ⟨s, ?_, Or.inl rfl⟩
        rw [hres]
        exact hi
    · have hrest : rest.any (fun r => r.1.fileFullPath = doc.fileFullPath) = true := by
        simp only [List.any_cons] at h
        rcases Bool.or_eq_true .. |>.mp h with h1 | h1
        · exact absurd (of_decide_eq_true h1) hd
        · exact h1
      obtain ⟨h1, h2, h3⟩ := ih hrest
      have hres : fOAUpsert ((d, seen) :: rest) doc today
          = ((d, seen) :: (fOAUpsert rest doc today).1, (fOAUpsert rest doc today).2) := by
        simp [fOAUpsert, hd]
      refine ⟨by rw [hres]; exact h1, by rw [hres]; simpa using h2, ?_⟩
      intro i p s hi
      cases i with
      | zero =>
        simp only [List.get?] at hi
        cases hi
        exact ⟨seen, by rw [hres]; rfl, Or.inl rfl⟩
      | succ i' =>
        simp only [List.get?] at hi
        obtain ⟨s', hs', hcase⟩ := h3 i' p s hi
        refine ⟨s', ?_, hcase⟩
        rw [hres]
        exact hs'

/-- C9 — frame property of one crawl step: when the parsed file's full path
is already present in the archive-file collection, the step produces NO
CanonicalRecord/DuplicateRecord candidates (`some []`: no picoDst promotion
and no tar expansion is run), the collection keeps exactly the same
documents (only a `lastSeen` date may change to today), and an empty
candidate list leaves the canonical and duplicate collections untouched. -/
theorem claim9_reobservation_frame (tks : List (List String)) (dataClass today : String)
    (coll : List (HFile × String)) (doc : HFile) (tarEntries : List (String × String))
    (h : coll.any (fun r => r.1.fileFullPath = doc.fileFullPath) = true) :
    (stepFile tks dataClass today coll doc tarEntries).2 = some [] ∧
    (stepFile tks dataClass today coll doc tarEntries).1.map Prod.fst = coll.map Prod.fst ∧
    (∀ (i : Nat) (p : HFile) (s : String), coll.get? i = some (p, s) →
      ∃ s', (stepFile tks dataClass today coll doc tarEntries).1.get? i = some (p, s') ∧
        (s' = s ∨ s' = today)) ∧
    (∀ st : PicoStore, insertPicoDsts st [] = st) := by
  obtain ⟨h1, h2, h3⟩ := fOAUpsert_found doc today coll h
  obtain ⟨pre, hpre⟩ := Option.isSome_iff_exists.mp h1
  have hstep : stepFile tks dataClass today coll doc tarEntries
      = ((fOAUpsert coll doc today).1, some []) := by
    simp only [stepFile, hpre]
  rw [hstep]
  exact ⟨rfl, h2, h3, fun st => by simp [insertPicoDsts]⟩

theorem claim9_reobservation_frame_witness :
    (stepFile [] "picoDst" "2016-02-02"
        [(⟨"/p/f.tar", "10", "tar"⟩, "2016-01-01")] ⟨"/p/f.tar", "99", "tar"⟩ []).2
      = some [] ∧
    (stepFile [] "picoDst" "2016-02-02"
        [(⟨"/p/f.tar", "10", "tar"⟩, "2016-01-01")] ⟨"/p/f.tar", "99", "tar"⟩ []).1.map Prod.fst
      = [⟨"/p/f.tar", "10", "tar"⟩] :=
  ⟨(claim9_reobservation_frame [] "picoDst" "2016-02-02"
      [(⟨"/p/f.tar", "10", "tar"⟩, "2016-01-01")] ⟨"/p/f.tar", "99", "tar"⟩ [] (by decide)).1,
   (claim9_reobservation_frame [] "picoDst" "2016-02-02"
      [(⟨"/p/f.tar", "10", "tar"⟩, "2016-01-01")] ⟨"/p/f.tar", "99", "tar"⟩ [] (by decide)).2.1⟩

/-- C2 — the container-staging heuristic evaluated at the spec's scenario on
the spec-modelled expansion (the source's `prepareListOfFilesToBeStaged`
never implements it): `148.tar` holds 40 data-class entries and 12 of them
(30% > 25%) are in `toStage`, so the 12 per-file entries are replaced by the
single stage-whole-container directive; with only 10 of them (exactly 25%,
not above the threshold) every per-file directive is kept. -/
theorem claim2_container_threshold_model :
    expandContainers 25 (fun c => if c = "148.tar" then 40 else 0)
        [("f1", some "148.tar"), ("f2", some "148.tar"), ("f3", some "148.tar"),
         ("f4", some "148.tar"), ("f5", some "148.tar"), ("f6", some "148.tar"),
         ("f7", some "148.tar"), ("f8", some "148.tar"), ("f9", some "148.tar"),
         ("f10", some "148.tar"), ("f11", some "148.tar"), ("f12", some "148.tar")]
      = [.container "148.tar"] ∧
    expandContainers 25 (fun c => if c = "148.tar" then 40 else 0)
        [("f1", some "148.tar"), ("f2", some "148.tar"), ("f3", some "148.tar"),
         ("f4", some "148.tar"), ("f5", some "148.tar"), ("f6", some "148.tar"),
         ("f7", some "148.tar"), ("f8", some "148.tar"), ("f9", some "148.tar"),
         ("f10", some "148.tar")]
      = [.file "f1", .file "f2", .file "f3", .file "f4", .file "f5", .file "f6",
         .file "f7", .file "f8", .file "f9", .file "f10"] := by
  decide

end SDMS
